import Mathlib

/-!
Verification of the ChemSP spectral pipeline
(`chemsp/graphs/graph_operators.py`, `chemsp/graphs/graph_operations.py`,
`chemsp/signal_processing/signal_processing.py`).

Matrices are embedded two ways, each faithful to the numpy code it models:

* `Matrix (Fin n) (Fin n) ℚ` for the pure linear-algebra operators
  (`degree`, `laplacian`, `lap`, and `gft` at matching dimensions), where
  the shape bookkeeping of numpy is carried by the types;
* `List (List ℚ)` ("`Mat`") together with an `Except` monad for the
  functions whose behaviour on ill-shaped or ill-typed input is at issue
  (`adjacency`, `fourier_basis`, `gft`'s dimension assertion,
  `fourier_decomposition`), where Python exceptions become `Except.error`
  values and numpy broadcasting is modelled explicitly.
-/

namespace ChemSP

/-- `degree(adjacency)` from `graph_operators.py`: `np.zeros_like` followed by
`np.fill_diagonal(degree, np.sum(adjacency, axis=0))`.  `np.sum(·, axis=0)`
sums along axis 0, so entry `i` of the filled diagonal is the sum of
**column** `i` of the input. -/
def degree {n : ℕ} (A : Matrix (Fin n) (Fin n) ℚ) : Matrix (Fin n) (Fin n) ℚ :=
  Matrix.diagonal (fun i => ∑ j, A j i)

/-- `laplacian(adjacency)` from `graph_operators.py`: `degree(adjacency) - adjacency`. -/
def laplacian {n : ℕ} (A : Matrix (Fin n) (Fin n) ℚ) : Matrix (Fin n) (Fin n) ℚ :=
  degree A - A

/-- `lap(adjacency)` from `graph_operations.py`, translated step by step:
`adj = np.copy(adjacency)`; `np.fill_diagonal(adj, 0)` (the matrix `z` below);
`adj *= -1` (the matrix `m` below); finally
`np.fill_diagonal(adj, np.sum(adj, 0) * -1)` where the column sums are taken
on the negated matrix `m` before the diagonal is overwritten. -/
def lap {n : ℕ} (A : Matrix (Fin n) (Fin n) ℚ) : Matrix (Fin n) (Fin n) ℚ :=
  let z : Matrix (Fin n) (Fin n) ℚ := fun i j => if i = j then 0 else A i j
  let m : Matrix (Fin n) (Fin n) ℚ := fun i j => z i j * -1
  fun i j => if i = j then (∑ k, m k j) * -1 else m i j

/-- A row of a numpy 2-D float array, with entries idealised as rationals. -/
abbrev Row := List ℚ

/-- A numpy 2-D float array as a list of rows (rectangular in intended use). -/
abbrev Mat := List Row

/-- The Python exceptions the embedded functions can raise. -/
inductive PyError where
  /-- `AssertionError` with its message, raised by a failing `assert`. -/
  | assertionError (msg : String)
  /-- `NameError` for an undefined name. -/
  | nameError (msg : String)
  /-- numpy's `ValueError: operands could not be broadcast together`. -/
  | broadcastError
  /-- `AttributeError`, e.g. accessing `.T` on a non-array object. -/
  | attributeError (msg : String)
  /-- any other exception, identified by its message. -/
  | exception (msg : String)
  deriving Repr, DecidableEq

/-- Number of columns of a list-matrix: the length of its first row
(`shape[1]` of a rectangular numpy array). -/
def ncols (m : Mat) : ℕ := (m.headD []).length

/-- Entry `(i, j)` of a list-matrix (0 outside the matrix; only used in range). -/
def entry (m : Mat) (i j : ℕ) : ℚ := (m.getD i []).getD j 0

/-- numpy broadcast indexing along one axis: an axis of extent 1 is
stretched, any other extent is indexed directly. -/
def bIdx (extent i : ℕ) : ℕ := if extent = 1 then 0 else i

/-- Absolute value on ℚ, written so that it evaluates by kernel reduction. -/
def ratAbs (q : ℚ) : ℚ := if q < 0 then -q else q

/-- numpy `isclose(a, b)` with the default tolerances
`atol = 1e-8`, `rtol = 1e-5`: `|a - b| <= atol + rtol * |b|`. -/
def npIsClose (a b : ℚ) : Bool := ratAbs (a - b) ≤ 1 / 100000000 + 1 / 100000 * ratAbs b

/-- Whether the shapes `(r, c)` and `(c, r)` of a 2-D array and its transpose
are numpy-broadcast compatible (each axis pair equal or containing a 1). -/
def broadcastCompat (r c : ℕ) : Bool := r = c || r = 1 || c = 1

/-- `np.allclose(gso, gso.T)` on a rectangular `r × c` array, with
broadcasting: both operands are broadcast to shape `(max r c, max r c)`;
the transpose's broadcast entry `(i, j)` is `gso[bIdx r j][bIdx c i]`. -/
def npAllcloseT (g : Mat) : Bool :=
  let r := g.length
  let c := ncols g
  let n := max r c
  (List.range n).all fun i => (List.range n).all fun j =>
    npIsClose (entry g (bIdx r i) (bIdx c j)) (entry g (bIdx r j) (bIdx c i))

/-- Result of `fourier_basis`: the eigenvector matrix alone, or paired with
the eigenvalue vector when `return_vals` is set. -/
inductive FBResult where
  | basisOnly (q : Mat)
  | basisVals (q : Mat) (l : Row)
  deriving Repr, DecidableEq

/-- `fourier_basis(gso, return_vals)` from `signal_processing.py`, translated
line by line: `assert np.allclose(gso, gso.T)` (raising a broadcast error when
the shapes are not compatible, the assertion error naming the symmetry check
when the comparison is false), then `assert gso.shape[0] == gso.shape[1]`
naming the square check, then `np.linalg.eigh(arr)` — where `arr` is an
undefined name, so this line raises `NameError` and no branch ever returns. -/
def fourier_basis (gso : Mat) (return_vals : Bool) : Except PyError FBResult :=
  if ¬ broadcastCompat gso.length (ncols gso) then
    .error .broadcastError
  else if ¬ npAllcloseT gso then
    .error (.assertionError "The provided graph shift operator is not symmetric.")
  else if gso.length ≠ ncols gso then
    .error (.assertionError "The provided graph shift operator is not square.")
  else
    .error (.nameError "name 'arr' is not defined")

/-- `fourier_basis.T @ signal` for matching lengths: coefficient `j` is
`sum_i basis[i][j] * signal[i]`, computed by zipping the rows of the basis
with the signal. -/
def matVecT (b : Mat) (s : Row) : Row :=
  (List.range (ncols b)).map fun j =>
    ((b.zip s).map fun rx => rx.1.getD j 0 * rx.2).sum

/-- `gft(fourier_basis, signal)` from `signal_processing.py` (textually
identical in `graph_operations.py`):
`assert fourier_basis.shape[0] == signal.shape[0]` then
`return fourier_basis.T @ signal`. -/
def gft (fourier_basis : Mat) (signal : Row) : Except PyError Row :=
  if fourier_basis.length ≠ signal.length then
    .error (.assertionError
      "The number of eigenvectors must equal the dimension of the signal.")
  else
    .ok (matVecT fourier_basis signal)

/-- The representation set `X` handed to `adjacency`, as seen by the
`isinstance`/`np.array` coercion at its head: already an `np.ndarray`,
coercible to one, or raising some exception under `np.array(X)`. -/
inductive RepInput where
  | arr (m : Mat)
  | coercible (m : Mat)
  | bad (e : String)
  deriving Repr, DecidableEq

/-- The coercion prefix of `adjacency`: `X` if it is already an ndarray,
otherwise `np.array(X)`, which either succeeds or raises. -/
def coerce : RepInput → Except String Mat
  | .arr m => .ok m
  | .coercible m => .ok m
  | .bad e => .error e

/-- The metric contract consumed by `adjacency`: a vectorized call
`metric(X, X)` that either returns a matrix or raises (`none`), and a
scalar pairwise call `metric(x, y)` that may itself raise. -/
structure MetricFn where
  vec : Mat → Option Mat
  pair : Row → Row → Except PyError ℚ

/-- The inner comprehension `[metric(x, y) for y in X]`: evaluated left to
right, the first exception propagating. -/
def pairRow (p : Row → Row → Except PyError ℚ) (x : Row) : Mat → Except PyError Row
  | [] => .ok []
  | y :: ys =>
    match p x y with
    | .error e => .error e
    | .ok v =>
      match pairRow p x ys with
      | .error e => .error e
      | .ok vs => .ok (v :: vs)

/-- The outer comprehension `[[metric(x, y) for y in X] for x in X]` over
the row list `rows`, with `full` the whole coerced `X`. -/
def pairMat (p : Row → Row → Except PyError ℚ) (full : Mat) : Mat → Except PyError Mat
  | [] => .ok []
  | x :: xs =>
    match pairRow p x full with
    | .error e => .error e
    | .ok r =>
      match pairMat p full xs with
      | .error e => .error e
      | .ok rs => .ok (r :: rs)

/-- A value returned by `adjacency`: either a matrix, or — on coercion
failure — the caught exception object itself, returned as an ordinary
value by `return e`. -/
inductive PyVal where
  | mat (m : Mat)
  | exn (e : String)
  deriving Repr, DecidableEq

/-- `adjacency(X, metric)` from `graph_operators.py`, translated line by
line: coerce `X` with `np.array` if needed, **returning** (not raising) the
caught exception on failure; then `try: return metric(X, X)`; on any
exception fall back to the pairwise comprehension, whose own exceptions
propagate. -/
def adjacency (X : RepInput) (metric : MetricFn) : Except PyError PyVal :=
  match coerce X with
  | .error e => .ok (.exn e)
  | .ok m =>
    match metric.vec m with
    | some a => .ok (.mat a)
    | none =>
      match pairMat metric.pair m m with
      | .error e => .error e
      | .ok p => .ok (.mat p)

/-- `fourier_basis` applied to whatever `adjacency` returned: on the
exception-object value, Python's `gso.T` inside `np.allclose` raises
`AttributeError`; on a matrix it is the ordinary `fourier_basis`. -/
def fourier_basis_val : PyVal → Bool → Except PyError FBResult
  | .exn _, _ => .error (.attributeError "T")
  | .mat m, rv => fourier_basis m rv

/-- `fourier_decomposition(X, K, S)` from `signal_processing.py`:
`adj = adjacency(X, K)`; `eigenvectors = fourier_basis(adj)` (default
`return_vals=False`); `return gft(eigenvectors, S)`; every exception
propagates unchanged. -/
def fourier_decomposition (X : RepInput) (K : MetricFn) (S : Row) :
    Except PyError Row :=
  match adjacency X K with
  | .error e => .error e
  | .ok v =>
    match fourier_basis_val v false with
    | .error e => .error e
    | .ok (.basisOnly q) => gft q S
    | .ok (.basisVals q _) => gft q S

/-- Modelled from the spec: the manual composition
`gft(fourier_basis(adjacency(X, K)), S)` written out stage by stage, each
stage's error surfaced unchanged, to be compared with
`fourier_decomposition`. -/
def manual_composition (X : RepInput) (K : MetricFn) (S : Row) :
    Except PyError Row :=
  match adjacency X K with
  | .error e => .error e
  | .ok v =>
    match fourier_basis_val v false with
    | .error e => .error e
    | .ok (.basisOnly q) => gft q S
    | .ok (.basisVals q _) => gft q S

/-- `gft` at exactly matching dimensions, on type-indexed matrices: the
dimension assertion of `gft` holds by typing and the body is
`fourier_basis.T @ signal`, i.e. `Qᵀ *ᵥ S`. -/
def gftSquare {n : ℕ} (Q : Matrix (Fin n) (Fin n) ℚ) (S : Fin n → ℚ) : Fin n → ℚ :=
  Q.transpose.mulVec S

/-- A type-indexed vector rendered as the numpy 1-D array it models. -/
def listOfVec {n : ℕ} (S : Fin n → ℚ) : Row := (List.finRange n).map S

/-- A type-indexed matrix rendered as the numpy 2-D array it models. -/
def listOfMatrix {n : ℕ} (Q : Matrix (Fin n) (Fin n) ℚ) : Mat :=
  (List.finRange n).map fun i => (List.finRange n).map fun j => Q i j

theorem length_listOfVec {n : ℕ} (S : Fin n → ℚ) : (listOfVec S).length = n := by
  simp [listOfVec]

theorem length_listOfMatrix {n : ℕ} (Q : Matrix (Fin n) (Fin n) ℚ) :
    (listOfMatrix Q).length = n := by
  simp [listOfMatrix]

theorem ncols_listOfMatrix {n : ℕ} (Q : Matrix (Fin n) (Fin n) ℚ) :
    ncols (listOfMatrix Q) = n := by
  unfold ncols listOfMatrix
  cases n with
  | zero => simp
  | succ m => rw [List.finRange_succ]; simp

/-- The list-level `gft` agrees with `gftSquare` on rendered inputs: the
dimension assertion passes and the result is the rendered `Qᵀ *ᵥ S`. -/
theorem gft_listOfMatrix {n : ℕ} (Q : Matrix (Fin n) (Fin n) ℚ) (S : Fin n → ℚ) :
    gft (listOfMatrix Q) (listOfVec S) = .ok (listOfVec (gftSquare Q S)) := by
  rw [gft, if_neg (by rw [length_listOfMatrix, length_listOfVec]; simp)]
  congr 1
  rw [matVecT, ncols_listOfMatrix]
  apply List.ext_getElem
  · simp [listOfVec]
  · intro i h1 h2
    simp only [List.getElem_map, List.getElem_range, listOfVec, List.getElem_finRange]
    rw [listOfMatrix, List.zip_map']
    rw [List.map_map]
    have hrow : ∀ k : Fin n,
        (((List.finRange n).map fun j => Q k j).getD i 0) = Q k ⟨i, by simpa using h1⟩ := by
      intro k
      rw [List.getD_eq_getElem?_getD, List.getElem?_map]
      rw [List.getElem?_eq_getElem (by simpa using h1)]
      simp
    have : ((List.finRange n).map
        ((fun rx : Row × ℚ => rx.1.getD i 0 * rx.2) ∘
          fun x => ((List.finRange n).map fun j => Q x j, S x)))
        = (List.finRange n).map fun k => Q k ⟨i, by simpa using h1⟩ * S k := by
      apply List.map_congr_left
      intro k _
      simp only [Function.comp_apply]
      rw [hrow k]
    rw [this]
    simp only [gftSquare, Matrix.mulVec, Matrix.dotProduct]
    rw [Fin.sum_univ_def]
    simp [Matrix.transpose_apply, Fin.cast_mk]

/-- Each entry of a row produced by `pairRow` is the result of the
corresponding pairwise metric call. -/
theorem pairRow_ok_spec (p : Row → Row → Except PyError ℚ) (x : Row) :
    ∀ ys r, pairRow p x ys = .ok r →
      r.length = ys.length ∧ ∀ j, j < ys.length → p x (ys.getD j []) = .ok (r.getD j 0) := by
  intro ys
  induction ys with
  | nil =>
    intro r h
    simp only [pairRow] at h
    cases h
    exact ⟨rfl, by intro j hj; cases hj⟩
  | cons y ys ih =>
    intro r h
    simp only [pairRow] at h
    cases hy : p x y with
    | error e => rw [hy] at h; cases h
    | ok v =>
      rw [hy] at h
      cases hys : pairRow p x ys with
      | error e => rw [hys] at h; cases h
      | ok vs =>
        rw [hys] at h
        cases h
        obtain ⟨hlen, hent⟩ := ih vs hys
        refine ⟨by simp [hlen], ?_⟩
        intro j hj
        cases j with
        | zero => simpa using hy
        | succ k =>
          simp only [List.getD_cons_succ]
          exact hent k (by simpa using hj)

/-- Each row of a matrix produced by `pairMat` is the `pairRow` of the
corresponding element of the outer iterable. -/
theorem pairMat_ok_spec (p : Row → Row → Except PyError ℚ) (full : Mat) :
    ∀ rows P, pairMat p full rows = .ok P →
      P.length = rows.length ∧
        ∀ i, i < rows.length → pairRow p (rows.getD i []) full = .ok (P.getD i []) := by
  intro rows
  induction rows with
  | nil =>
    intro P h
    simp only [pairMat] at h
    cases h
    exact ⟨rfl, by intro i hi; cases hi⟩
  | cons x xs ih =>
    intro P h
    simp only [pairMat] at h
    cases hx : pairRow p x full with
    | error e => rw [hx] at h; cases h
    | ok r =>
      rw [hx] at h
      cases hxs : pairMat p full xs with
      | error e => rw [hxs] at h; cases h
      | ok rs =>
        rw [hxs] at h
        cases h
        obtain ⟨hlen, hrows⟩ := ih rs hxs
        refine ⟨by simp [hlen], ?_⟩
        intro i hi
        cases i with
        | zero => simpa using hx
        | succ k =>
          simp only [List.getD_cons_succ]
          exact hrows k (by simpa using hi)

end ChemSP

namespace ChemSP

instance exceptDecEq {e a : Type} [DecidableEq e] [DecidableEq a] :
    DecidableEq (Except e a) := fun x y =>
  match x, y with
  | .error u, .error v =>
    if h : u = v then .isTrue (by rw [h]) else .isFalse (by intro hc; cases hc; exact h rfl)
  | .error _, .ok _ => .isFalse (by intro hc; cases hc)
  | .ok _, .error _ => .isFalse (by intro hc; cases hc)
  | .ok u, .ok v =>
    if h : u = v then .isTrue (by rw [h]) else .isFalse (by intro hc; cases hc; exact h rfl)

theorem sum_ite_zero_eq_sub {n : ℕ} (f : Fin n → ℚ) (i : Fin n) :
    ∑ k, (if k = i then (0:ℚ) else f k) = (∑ k, f k) - f i := by
  have : ∀ k : Fin n, (if k = i then (0:ℚ) else f k)
      = f k - (if k = i then f k else 0) := by
    intro k; by_cases hk : k = i <;> simp [hk]
  rw [Finset.sum_congr rfl fun k _ => this k]
  rw [Finset.sum_sub_distrib, Finset.sum_ite_eq' Finset.univ i f]
  simp

/-- C1 -/
theorem c1_fourier_basis_raises_name_error :
    fourier_basis [[(0:ℚ), 1], [1, 0]] true
      = .error (.nameError "name 'arr' is not defined") := by with_unfolding_all rfl

/-- C2 counterexample -/
theorem c2_degree_row_sum_counterexample :
    ChemSP.degree !![(0:ℚ),1;0,0] 0 0 ≠ !![(0:ℚ),1;0,0] 0 0 + !![(0:ℚ),1;0,0] 0 1 := by
  simp [ChemSP.degree, Matrix.diagonal, Fin.sum_univ_two]

/-- C2 amended -/
theorem c2_degree_diagonal_column_sums {n : ℕ} (A : Matrix (Fin n) (Fin n) ℚ) :
    (∀ i j, ChemSP.degree A i j = if i = j then ∑ k, A k i else 0) ∧
    (A.transpose = A → ∀ i, ChemSP.degree A i i = ∑ j, A i j) := by
  constructor
  · intro i j
    by_cases h : i = j
    · subst h; simp [ChemSP.degree, Matrix.diagonal]
    · simp [ChemSP.degree, Matrix.diagonal, h]
  · intro hsym i
    have hs : ∀ a b : Fin n, A a b = A b a := by
      intro a b
      have := congrFun (congrFun hsym a) b
      simpa [Matrix.transpose_apply] using this.symm
    simp only [ChemSP.degree, Matrix.diagonal_apply_eq]
    exact Finset.sum_congr rfl fun k _ => hs k i

/-- C2 witness -/
theorem c2_degree_witness :
    (!![(0:ℚ),1;1,0]).transpose = !![(0:ℚ),1;1,0] ∧
      ChemSP.degree !![(0:ℚ),1;1,0] 0 0 = ∑ j, !![(0:ℚ),1;1,0] 0 j := by
  have h : (!![(0:ℚ),1;1,0]).transpose = !![(0:ℚ),1;1,0] := by
    ext i j
    fin_cases i <;> fin_cases j <;> simp
  exact ⟨h, (c2_degree_diagonal_column_sums !![(0:ℚ),1;1,0]).2 h 0⟩

/-- C9 -/
theorem c9_laplacian_rows_sum_zero {n : ℕ} (A : Matrix (Fin n) (Fin n) ℚ) :
    laplacian A = ChemSP.degree A - A ∧
    (A.transpose = A → ∀ i, ∑ j, laplacian A i j = 0) := by
  refine ⟨rfl, ?_⟩
  intro hsym i
  have hs : ∀ a b : Fin n, A a b = A b a := by
    intro a b
    have := congrFun (congrFun hsym a) b
    simpa [Matrix.transpose_apply] using this.symm
  simp only [laplacian, ChemSP.degree, Matrix.sub_apply, Finset.sum_sub_distrib]
  rw [Finset.sum_congr rfl (fun j _ => Matrix.diagonal_apply (fun i => ∑ k, A k i) i j)]
  simp [Finset.sum_ite_eq, hs]

/-- C9 witness -/
theorem c9_laplacian_witness :
    (!![(0:ℚ),2;2,0]).transpose = !![(0:ℚ),2;2,0] ∧
      ∑ j, laplacian !![(0:ℚ),2;2,0] 0 j = 0 := by
  have h : (!![(0:ℚ),2;2,0]).transpose = !![(0:ℚ),2;2,0] := by
    ext i j
    fin_cases i <;> fin_cases j <;> simp
  exact ⟨h, (c9_laplacian_rows_sum_zero !![(0:ℚ),2;2,0]).2 h 0⟩

/-- C10 -/
theorem c10_lap_eq_laplacian {n : ℕ} (A : Matrix (Fin n) (Fin n) ℚ) :
    lap A = laplacian A ∧
    ∀ i j, lap A i j = if i = j then ∑ k, (if k = i then (0:ℚ) else A k i) else -(A i j) := by
  have key : lap A = laplacian A := by
    funext i j
    by_cases h : i = j
    · subst h
      simp only [lap, laplacian, ChemSP.degree, Matrix.sub_apply, Matrix.diagonal_apply_eq,
        if_pos rfl]
      have : ∀ k : Fin n, (if k = i then (0:ℚ) else A k i) * -1 * -1
          = A k i - (if k = i then A k i else 0) := by
        intro k; by_cases hk : k = i <;> simp [hk]
      rw [Finset.sum_mul]
      rw [Finset.sum_congr rfl fun k _ => this k]
      simp [Finset.sum_sub_distrib, Finset.sum_ite_eq']
    · simp only [lap, laplacian, ChemSP.degree, Matrix.sub_apply, if_neg h,
        Matrix.diagonal_apply_ne _ h]
      ring_nf
  refine ⟨key, ?_⟩
  intro i j
  rw [key]
  by_cases h : i = j
  · subst h
    simp [laplacian, ChemSP.degree, sum_ite_zero_eq_sub]
  · simp [laplacian, ChemSP.degree, Matrix.diagonal_apply_ne _ h, h]

end ChemSP

namespace ChemSP

theorem fourier_basis_no_ok (gso : Mat) (rv : Bool) (r : FBResult) :
    fourier_basis gso rv ≠ .ok r := by
  unfold fourier_basis
  split_ifs <;> simp

/-- C3 -/
theorem c3_gft_round_trip {n : ℕ} (Q : Matrix (Fin n) (Fin n) ℚ) (S : Fin n → ℚ)
    (h : Q.transpose * Q = 1) :
    gft (listOfMatrix Q) (listOfVec S) = .ok (listOfVec (gftSquare Q S)) ∧
    Q.mulVec (gftSquare Q S) = S :=
  ⟨gft_listOfMatrix Q S, by
    rw [gftSquare, Matrix.mulVec_mulVec, Matrix.mul_eq_one_comm.mp h, Matrix.one_mulVec]⟩

/-- C3 witness -/
theorem c3_gft_round_trip_witness :
    ((!![(3:ℚ)/5, -4/5; 4/5, 3/5]).transpose * !![(3:ℚ)/5, -4/5; 4/5, 3/5] = 1) ∧
    (!![(3:ℚ)/5, -4/5; 4/5, 3/5]).mulVec
      (gftSquare !![(3:ℚ)/5, -4/5; 4/5, 3/5] ![1, 2]) = ![1, 2] := by
  have ht : (!![(3:ℚ)/5, -4/5; 4/5, 3/5]).transpose = !![(3:ℚ)/5, 4/5; -4/5, 3/5] := by
    ext i j
    fin_cases i <;> fin_cases j <;> simp [Matrix.transpose_apply]
  have h : (!![(3:ℚ)/5, -4/5; 4/5, 3/5]).transpose * !![(3:ℚ)/5, -4/5; 4/5, 3/5] = 1 := by
    rw [ht, Matrix.mul_fin_two, Matrix.one_fin_two]
    norm_num
  exact ⟨h, (c3_gft_round_trip !![(3:ℚ)/5, -4/5; 4/5, 3/5] ![1, 2] h).2⟩

/-- C4 -/
theorem c4_fourier_decomposition_is_manual_composition
    (X : RepInput) (K : MetricFn) (S : Row) :
    fourier_decomposition X K S = manual_composition X K S ∧
    (∀ e, adjacency X K = .error e → fourier_decomposition X K S = .error e) ∧
    (∀ v e, adjacency X K = .ok v → fourier_basis_val v false = .error e →
      fourier_decomposition X K S = .error e) := by
  refine ⟨rfl, ?_, ?_⟩
  · intro e h
    unfold fourier_decomposition
    rw [h]
  · intro v e h1 h2
    simp only [fourier_decomposition, h1, h2]

/-- C4 witness -/
theorem c4_fourier_decomposition_witness :
    fourier_decomposition (.arr [[(1:ℚ)]])
        ⟨fun _ => none, fun _ _ => .error (.exception "metric failure")⟩ [1]
      = .error (.exception "metric failure") ∧
    fourier_decomposition (.arr [[(1:ℚ), 2], [3, 4]])
        ⟨fun mm => some mm, fun _ _ => .ok 0⟩ [1, 2]
      = .error (.assertionError "The provided graph shift operator is not symmetric.") :=
  ⟨(c4_fourier_decomposition_is_manual_composition _ _ _).2.1 _ rfl,
   (c4_fourier_decomposition_is_manual_composition _ _ _).2.2
     (.mat [[(1:ℚ), 2], [3, 4]]) _ rfl (by with_unfolding_all rfl)⟩

/-- C5 -/
theorem c5_adjacency_vectorized_first_pairwise_fallback
    (X : RepInput) (metric : MetricFn) (m : Mat) (hc : coerce X = .ok m) :
    (∀ a, metric.vec m = some a → adjacency X metric = .ok (.mat a)) ∧
    (metric.vec m = none → ∀ P, pairMat metric.pair m m = .ok P →
      adjacency X metric = .ok (.mat P) ∧ P.length = m.length ∧
      ∀ i j, i < m.length → j < m.length →
        metric.pair (m.getD i []) (m.getD j []) = .ok (entry P i j)) := by
  constructor
  · intro a ha
    simp only [adjacency, hc, ha]
  · intro hv P hP
    refine ⟨by simp only [adjacency, hc, hv, hP], (pairMat_ok_spec _ _ _ _ hP).1, ?_⟩
    intro i j hi hj
    obtain ⟨hlen, hrows⟩ := pairMat_ok_spec metric.pair m m P hP
    obtain ⟨hrl, hent⟩ := pairRow_ok_spec metric.pair (m.getD i []) m (P.getD i []) (hrows i hi)
    simpa [entry] using hent j hj

/-- C5 witness -/
theorem c5_adjacency_witness :
    adjacency (.arr [[(5:ℚ)]]) ⟨fun mm => some mm, fun _ _ => .ok 0⟩
      = .ok (.mat [[(5:ℚ)]]) ∧
    adjacency (.coercible [[(1:ℚ)], [2]])
        ⟨fun _ => none, fun x y => .ok (x.headD 0 - y.headD 0)⟩
      = .ok (.mat [[0, -1], [1, 0]]) :=
  ⟨(c5_adjacency_vectorized_first_pairwise_fallback (.arr [[(5:ℚ)]]) _ _ rfl).1 _ rfl,
   ((c5_adjacency_vectorized_first_pairwise_fallback (.coercible [[(1:ℚ)], [2]]) _ _ rfl).2
     rfl [[0, -1], [1, 0]] (by with_unfolding_all rfl)).1⟩

/-- C6 counterexample -/
theorem c6_coercion_failure_returned_not_raised :
    adjacency (.bad "could not convert sequence to array")
        ⟨fun mm => some mm, fun _ _ => .ok 0⟩
      = .ok (.exn "could not convert sequence to array") := rfl

/-- C6 amended -/
theorem c6_adjacency_returns_coercion_error (X : RepInput) (metric : MetricFn)
    (e : String) (h : coerce X = .error e) :
    adjacency X metric = .ok (.exn e) := by
  unfold adjacency
  rw [h]

/-- C6 witness -/
theorem c6_adjacency_witness :
    adjacency (.bad "setting an array element with a sequence")
        ⟨fun _ => none, fun _ _ => .ok 0⟩
      = .ok (.exn "setting an array element with a sequence") :=
  c6_adjacency_returns_coercion_error _ _ _ rfl

/-- C7 counterexample -/
theorem c7_nonsquare_broadcast_failure :
    (fourier_basis [[(0:ℚ), 0, 0], [0, 0, 0]] false = .error .broadcastError) ∧
    (fourier_basis [[(0:ℚ), 0, 0], [0, 0, 0]] false ≠ .error (.assertionError
      "The provided graph shift operator is not square.")) ∧
    (fourier_basis [[(0:ℚ), 0, 0], [0, 0, 0]] false ≠ .error (.assertionError
      "The provided graph shift operator is not symmetric.")) := by
  have h : fourier_basis [[(0:ℚ), 0, 0], [0, 0, 0]] false = .error .broadcastError := rfl
  refine ⟨h, ?_, ?_⟩ <;> rw [h] <;> simp

/-- C7 amended -/
theorem c7_square_asymmetric_assertion (gso : Mat) (rv : Bool)
    (hsq : gso.length = ncols gso) (hasym : npAllcloseT gso = false) :
    fourier_basis gso rv = .error (.assertionError
      "The provided graph shift operator is not symmetric.") ∧
    ∀ r, fourier_basis gso rv ≠ .ok r := by
  refine ⟨?_, fourier_basis_no_ok gso rv⟩
  rw [fourier_basis]
  rw [if_neg (by simp [broadcastCompat, hsq])]
  rw [if_pos (by simp [hasym])]

/-- C7 witness -/
theorem c7_symmetry_assertion_witness :
    fourier_basis [[(0:ℚ), 1], [0, 0]] false = .error (.assertionError
      "The provided graph shift operator is not symmetric.") :=
  (c7_square_asymmetric_assertion [[(0:ℚ), 1], [0, 0]] false rfl
    (by with_unfolding_all rfl)).1

/-- C8 -/
theorem c8_gft_dimension_check (b : Mat) (s : Row) :
    (b.length ≠ s.length → gft b s = .error (.assertionError
      "The number of eigenvectors must equal the dimension of the signal.")) ∧
    (b.length = s.length → gft b s = .ok (matVecT b s) ∧ (matVecT b s).length = ncols b) := by
  constructor
  · intro h
    rw [gft, if_pos h]
  · intro h
    rw [gft, if_neg (by simp [h])]
    exact ⟨rfl, by simp [matVecT]⟩

/-- C8 witness -/
theorem c8_gft_witness :
    gft [[(1:ℚ), 0], [0, 1]] [1, 2, 3] = .error (.assertionError
      "The number of eigenvectors must equal the dimension of the signal.") ∧
    gft [[(1:ℚ), 0], [0, 1]] [1, 2] = .ok (matVecT [[(1:ℚ), 0], [0, 1]] [1, 2]) :=
  ⟨(c8_gft_dimension_check _ _).1 (by decide),
   ((c8_gft_dimension_check _ _).2 rfl).1⟩

end ChemSP
